import Mathlib

/-!
Verification of the `ross` results module (`src/ross/results.py`).

The module defines `Results`, a numpy `ndarray` subclass that carries an
open-ended set of named attributes alongside a numeric payload, plus six
plot-renderer subclasses.  We embed the attribute machinery
(`__new__`, `__array_finalize__`, `__reduce__`, `__setstate__`) and the
data computations of the renderers shallowly, and prove or refute the
specified properties.

Python instance attributes are modelled as an association list from
attribute name to `PyObj` (a universe of Python values); `setattr`
overwrites in place or appends, `getattr` is the first lookup, exactly
as a Python instance `__dict__` behaves.  Numeric scalars are modelled
as exact rationals.
-/

namespace Ross

/-- Universe of Python values used as attribute values and as the
`new_attributes` argument: `None`, integers, floats (exact rationals),
strings, lists and dicts. -/
inductive PyObj where
  | pyNone
  | int (n : Int)
  | rat (q : Rat)
  | str (s : String)
  | list (l : List PyObj)
  | dict (d : List (String × PyObj))
deriving Repr

/-- Python exceptions raised by the embedded code. -/
inductive PyErr where
  | attributeError
  | notImplementedError
  | unboundLocalError
  | valueError
  | indexError
deriving Repr, DecidableEq

/-- An instance `__dict__`: attribute name to value, first binding wins
on lookup. -/
abbrev Dict := List (String × PyObj)

/-- Python `setattr`: overwrite the existing binding in place, or append
a new one. -/
def setattr (d : Dict) (k : String) (v : PyObj) : Dict :=
  match d with
  | [] => [(k, v)]
  | (k', v') :: t => if k' = k then (k', v) :: t else (k', v') :: setattr t k v

/-- Python attribute lookup on the instance `__dict__`. -/
def getattr (d : Dict) (k : String) : Option PyObj :=
  match d with
  | [] => none
  | (k', v') :: t => if k' = k then some v' else getattr t k

/-- Python `x.items()`: succeeds only on a mapping; on `None`, a plain
sequence or a primitive scalar the attribute is missing and an
`AttributeError` is raised. -/
def PyObj.items : PyObj → Except PyErr (List (String × PyObj))
  | .dict d => .ok d
  | _ => .error .attributeError

/-- The `Results` array subclass: a numeric payload (its shape varies by
result kind, hence the type parameter) plus the instance `__dict__`
holding the attributes installed by `__new__` and by
`__array_finalize__`, including the `_new_attributes` registry. -/
structure Results (π : Type) where
  payload : π
  dict : Dict
deriving Repr

/-- `Results.__new__` (results.py lines 26-35): view the input array,
install each attribute of `new_attributes` via `setattr`, then store the
registry as the `_new_attributes` attribute.  `new_attributes.items()`
raises `AttributeError` when the argument is not a mapping (`None` is
the default, and sequences and scalars also lack `.items`). -/
def Results.new {π : Type} (input_array : π) (new_attributes : PyObj) :
    Except PyErr (Results π) := do
  let kvs ← new_attributes.items
  let d := kvs.foldl (fun d kv => setattr d kv.1 kv.2) []
  .ok { payload := input_array, dict := setattr d "_new_attributes" new_attributes }

/-- `Results.__array_finalize__` (results.py lines 37-45): when numpy
finalizes a freshly derived array `self` from a source `obj`, copy each
attribute named in `obj._new_attributes` onto `self`, taking `obj`'s
current value and falling back to the registry value.  If `obj` is
`None`, or lacks `_new_attributes`, or its `_new_attributes` has no
`.items` (not a dict), the `AttributeError` is swallowed and
propagation is silently skipped.  Note that the registry itself is not
among the copied attributes. -/
def Results.arrayFinalize {π σ : Type} (self : Results π) (obj : Option (Results σ)) :
    Results π :=
  match obj with
  | none => self
  | some o =>
    match getattr o.dict "_new_attributes" with
    | some (.dict d) =>
      { self with
        dict := d.foldl (fun s kv => setattr s kv.1 ((getattr o.dict kv.1).getD kv.2)) self.dict }
    | some _ => self
    | none => self

/-- A derivation (slice, copy, same-shape arithmetic result): numpy
allocates a fresh instance holding the derived payload and an empty
`__dict__`, then calls `__array_finalize__` with the source object. -/
def Results.derive {π σ : Type} (x : Results π) (f : π → σ) : Results σ :=
  Results.arrayFinalize { payload := f x.payload, dict := [] } (some x)

/-- The state tuple built by `Results.__reduce__` (results.py lines
47-52): the ndarray pickle state (here, the payload) with
`self._new_attributes` appended.  Reading `self._new_attributes` raises
`AttributeError` when the instance lacks the registry. -/
structure ReduceState (π : Type) where
  ndState : π
  extra : PyObj
deriving Repr

/-- `Results.__reduce__` (results.py lines 47-52). -/
def Results.reduce {π : Type} (self : Results π) : Except PyErr (ReduceState π) :=
  match getattr self.dict "_new_attributes" with
  | some v => .ok { ndState := self.payload, extra := v }
  | none => .error .attributeError

/-- `Results.__setstate__` (results.py lines 54-58): on a freshly
allocated instance, bind `_new_attributes` to the last state component,
install each of its items as an attribute (raising `AttributeError` if
it is not a mapping), then restore the ndarray state (the payload). -/
def Results.setstate {π : Type} (state : ReduceState π) : Except PyErr (Results π) := do
  let d := setattr [] "_new_attributes" state.extra
  let kvs ← state.extra.items
  let d := kvs.foldl (fun d kv => setattr d kv.1 kv.2) d
  .ok { payload := state.ndState, dict := d }

/-- Serialize-then-deserialize at the pickle-protocol level:
`__reduce__` on the instance followed by `__setstate__` on a fresh
instance, as pickling and unpickling do. -/
def roundTrip {π : Type} (input_array : π) (new_attributes : PyObj) :
    Except PyErr (Results π) := do
  let x ← Results.new input_array new_attributes
  let s ← x.reduce
  Results.setstate s

/-- `Results.plot` (results.py lines 64-65): the base class always
raises `NotImplementedError`, whatever the arguments. -/
def Results.plot {π : Type} (_self : Results π) (_args : List PyObj) :
    Except PyErr PyObj :=
  .error .notImplementedError

/-! ## CampbellResults (results.py lines 68-241) -/

/-- Column `j` of a `[speed_step, mode, component]` Campbell payload:
`self[..., j]`.  The payload is rectangular with five components per
mode (`wd`, `log_dec`, `whirl`, `speed`, `wn`), per the class comment
at results.py line 89. -/
def column (data : List (List (List Rat))) (j : Nat) : List (List Rat) :=
  data.map (fun step => step.map (fun m => m.getD j 0))

/-- Column `i` of a `[speed_step, mode]` array: `arr[:, i]`. -/
def modeColumn (arr : List (List Rat)) (i : Nat) : List Rat :=
  arr.map (fun row => row.getD i 0)

/-- The scatter series drawn by `CampbellResults.plot` for one whirl
marker (results.py lines 127-177): for each mode `i`, the (speed,
frequency) points at the speed steps where `whirl[:, i] == whirl_dir`;
frequencies come from `wn` (column 4) when `wn=True` was passed, else
from `wd` (column 0). -/
def campbellSeries (data : List (List (List Rat))) (whirl_dir : Rat) (useWn : Bool) :
    List (Rat × Rat) :=
  let wd := column data 0
  let whirl := column data 2
  let speed_range := column data 3
  let wnArr := column data 4
  let num_frequencies := (wd.headD []).length
  (List.range num_frequencies).flatMap (fun i =>
    let w_i := modeColumn (if useWn then wnArr else wd) i
    let whirl_i := modeColumn whirl i
    let speed_range_i := modeColumn speed_range i
    ((speed_range_i.zip w_i).zip whirl_i).filterMap
      (fun p => if p.2 = whirl_dir then some p.1 else none))

/-- The three marker series of the Campbell diagram. -/
structure CampbellFig where
  forward : List (Rat × Rat)
  mixed : List (Rat × Rat)
  backward : List (Rat × Rat)
deriving Repr, DecidableEq

/-- `CampbellResults.plot`: whirl code 0.0 is drawn with the forward
marker `^`, 0.5 with the mixed marker `o`, 1.0 with the backward marker
`v` (results.py lines 127-128).  The method only reads the payload; it
writes nothing back to `self`, so the returned instance is the input. -/
def CampbellResults.plot (self : Results (List (List (List Rat)))) (useWn : Bool) :
    Results (List (List (List Rat))) × CampbellFig :=
  (self,
    { forward := campbellSeries self.payload 0 useWn
      mixed := campbellSeries self.payload (1/2) useWn
      backward := campbellSeries self.payload 1 useWn })

/-! ## Magnitude plots (results.py lines 244-313 and 474-544) -/

/-- Output of a magnitude plot: the bokeh y-axis label and the plotted
(frequency, magnitude) series. -/
structure MagPlot where
  yAxisLabel : String
  series : List (Rat × Rat)
deriving Repr, DecidableEq

/-- `FrequencyResponseResults.plot_magnitude` (results.py lines
245-313) as a function of the attributes it reads
(`self.frequency_range`, `self.magnitude`) and its arguments; nothing
is written back to the instance.  The method plots `mag[inp, out, :]`
(IndexError when out of range), calls `max(frequency_range)`
(ValueError on an empty sequence), then binds the y label: "m" and
"mic-pk-pk" have dedicated labels and every other units value takes
the `else` branch with the dB label (whose string literal in the
source lacks its closing parenthesis). -/
def FrequencyResponseResults.plot_magnitude (frequency_range : List Rat)
    (magnitude : List (List (List Rat))) (inp out : Nat) (units : String) :
    Except PyErr MagPlot := do
  let row ← match (magnitude.get? inp).bind (fun m => m.get? out) with
    | some row => Except.ok row
    | none => Except.error .indexError
  if frequency_range = [] then Except.error PyErr.valueError else
  let y_axis_label :=
    if units = "m" then "Amplitude (m)"
    else if units = "mic-pk-pk" then "Amplitude (\\mu pk-pk)"
    else "Amplitude (dB"
  Except.ok { yAxisLabel := y_axis_label, series := frequency_range.zip row }

/-- `ForcedResponseResults.plot_magnitude` (results.py lines 475-544)
as a function of the attributes it reads; nothing is written back to
the instance.  The units branch has no `else`: "m" binds the label,
"mic-pk-pk" rebinds the magnitude to `2 * mag * 1e6` (a fresh array,
not an in-place write) and binds the label, and any other units value
binds nothing (modelled by `none`).  The method then plots `mag[dof]`
(IndexError when out of range), calls `max(frequency_range)`
(ValueError on empty) and finally builds the bokeh figure with
`y_axis_label`, raising `UnboundLocalError` when no branch bound it. -/
def ForcedResponseResults.plot_magnitude (frequency_range : List Rat)
    (magnitude : List (List Rat)) (dof : Nat) (units : String) :
    Except PyErr MagPlot := do
  let magLabel : List (List Rat) × Option String :=
    if units = "m" then (magnitude, some "Amplitude (m)")
    else if units = "mic-pk-pk" then
      (magnitude.map (fun r => r.map (fun x => 2 * x * 1000000)),
        some "Amplitude $(\\mu pk-pk)$")
    else (magnitude, none)
  let row ← match magLabel.1.get? dof with
    | some row => Except.ok row
    | none => Except.error .indexError
  if frequency_range = [] then Except.error PyErr.valueError else
  match magLabel.2 with
  | some lbl => Except.ok { yAxisLabel := lbl, series := frequency_range.zip row }
  | none => Except.error .unboundLocalError

/-! ## ModeShapeResults (results.py lines 667-776) -/

/-- Exact complex numbers: numpy's complex eigenvector entries are
modelled with rational components. -/
structure CRat where
  re : Rat
  im : Rat
deriving Repr, DecidableEq

/-- Squared magnitude.  The source compares magnitudes
(`max(abs(...))`, `ymax > 0.4 * xmax`); magnitudes of complex
rationals are irrational, so the embedding compares squared
magnitudes, which preserves both the order test and the argmax on
nonnegative values. -/
def CRat.absSq (z : CRat) : Rat := z.re * z.re + z.im * z.im

/-- Complex division `z / w`. -/
def CRat.div (z w : CRat) : CRat :=
  ⟨(z.re * w.re + z.im * w.im) / w.absSq, (z.im * w.re - z.re * w.im) / w.absSq⟩

/-- `l[s::4]` for `s < 4`: every fourth entry starting at `s`
(`modex = evec0[0::4]`, `modey = evec0[1::4]`). -/
def strided (l : List CRat) (s : Nat) : List CRat :=
  l.enum.filterMap (fun p => if p.1 % 4 = s then some p.2 else none)

/-- `max(abs(l))` as a squared magnitude (numpy raises on an empty
array; the fold default 0 is only reached there). -/
def maxAbsSq (l : List CRat) : Rat :=
  (l.map CRat.absSq).foldr max 0

/-- `np.argmax(abs(l))`: first index attaining the maximum. -/
def argmaxAbsSq (l : List CRat) : Nat :=
  (l.map CRat.absSq).findIdx (fun x => x == maxAbsSq l)

/-- The eigenvector normalization at the head of
`ModeShapeResults.plot` (results.py lines 679-687): take the largest
|x| and |y| translational components, choose the normalizer
(`ymax > 0.4 * xmax`, compared here on squares: `0.4² = 4/25`), and
divide the whole eigenvector by it. -/
def normalizeEvec (evec0 : List CRat) : List CRat :=
  let modex := strided evec0 0
  let modey := strided evec0 1
  let ixmax := argmaxAbsSq modex
  let iymax := argmaxAbsSq modey
  let divisor :=
    if maxAbsSq modey > (4 / 25 : Rat) * maxAbsSq modex
    then modey.getD iymax ⟨0, 0⟩
    else modex.getD ixmax ⟨0, 0⟩
  evec0.map (fun z => z.div divisor)

/-- Column `mode` of the `[dof, mode]` eigenvector payload:
`evec0 = self[:, mode]`. -/
def evecColumn (payload : List (List CRat)) (mode : Nat) : List CRat :=
  payload.map (fun row => row.getD mode ⟨0, 0⟩)

/-- Writing a column back: replace entry `mode` of row `i` with entry
`i` of `col`. -/
def setColumn (payload : List (List CRat)) (mode : Nat) (col : List CRat) :
    List (List CRat) :=
  payload.enum.map (fun p => p.2.set mode (col.getD p.1 ⟨0, 0⟩))

/-- The effect of `ModeShapeResults.plot` on the instance itself:
`evec0 = self[:, mode]` is a numpy **view**, so `evec0 /= modey[iymax]`
(resp. `/= modex[ixmax]`) divides in place and mutates `self`'s
payload column `mode`.  Every other statement of the method only reads
`self`; the drawing output (circles built from `exp(1j*c)` and shape
functions) is transcendental display data and is not part of the
instance state. -/
def ModeShapeResults.plotSelf (self : Results (List (List CRat))) (mode : Nat) :
    Results (List (List CRat)) :=
  { self with payload :=
      setColumn self.payload mode (normalizeEvec (evecColumn self.payload mode)) }

/-! ## StaticResults and ConvergenceResults (results.py lines 778-1147) -/

/-- The two data series of `ConvergenceResults.plot`: (element count,
eigenvalue) and (element count, relative error). -/
structure ConvFig where
  freqSeries : List (Rat × Rat)
  errSeries : List (Rat × Rat)
deriving Repr, DecidableEq

/-- `ConvergenceResults.plot` (results.py lines 1078-1147): reads
copies (`np.array(self[i])`) of the three payload rows and zips them
into the two bokeh sources; nothing is written back to `self`. -/
def ConvergenceResults.plot (self : Results (List (List Rat))) :
    Results (List (List Rat)) × ConvFig :=
  let el_num := self.payload.getD 0 []
  let eigv_arr := self.payload.getD 1 []
  let error_arr := self.payload.getD 2 []
  (self, ⟨el_num.zip eigv_arr, el_num.zip error_arr⟩)

/-- The data series of `StaticResults.plot` that are exact functions
of its inputs: displacement source (`x0 = nodes_pos`,
`y0 = disp_y * 1000`), shaft weight `sum(df_shaft["m"]) * 9.8065`,
bearing reactions `-disp_y[node] * kyy`, disk weights `m * 9.8065`,
and the shear / bending sources. -/
structure StaticFig where
  dispSource : List (Rat × Rat)
  shWeight : Rat
  bearingForces : List Rat
  diskForces : List Rat
  shearSource : List (Rat × Rat)
  bendingSource : List (Rat × Rat)
deriving Repr, DecidableEq

/-- `StaticResults.plot` (results.py lines 779-1075) as a function of
the payload (`disp_y`, `Vx`, `Bm` rows, read through copying
`np.array(self[i])`) and the attributes it reads (`df_shaft` masses,
`df_bearings` node/stiffness pairs, `df_disks` node/mass pairs,
`nodes_pos`, `Vx_axis`).  The scipy cubic/quadratic interpolation
curves are display-only refinements of the same sources and are not
modelled.  Nothing is written back to `self`. -/
def StaticResults.plot (self : Results (List (List Rat)))
    (shaftMasses : List Rat) (bearings : List (Nat × Rat))
    (diskMasses : List (Nat × Rat)) (nodes_pos : List Rat) (vxAxis : List Rat) :
    Results (List (List Rat)) × StaticFig :=
  let disp_y := self.payload.getD 0 []
  let vx := self.payload.getD 1 []
  let bm := self.payload.getD 2 []
  (self,
    { dispSource := nodes_pos.zip (disp_y.map (fun y => y * 1000))
      shWeight := (shaftMasses.foldr (· + ·) 0) * (9.8065 : Rat)
      bearingForces := bearings.map (fun b => -(disp_y.getD b.1 0) * b.2)
      diskForces := diskMasses.map (fun dm => dm.2 * (9.8065 : Rat))
      shearSource := vxAxis.zip vx
      bendingSource := nodes_pos.zip bm })

/-! ## Byte-level serialization (spec-modelled)

The on-disk format of a saved result is the pickle stream written by
`Results.save` (results.py lines 60-62); the matching loader is not
part of `src/`, so the byte level is modelled from the spec:
`serialize` "produces a self-describing byte sequence encoding the
payload and the full attribute mapping" and `deserialize` is its
"exact inverse", failing with `DeserializationError` on malformed
input.  Bytes are modelled as natural-number tokens. -/

/-- Integer encoding: a sign token (0 nonnegative, 1 negative), then
the magnitude. -/
def encInt (n : Int) : List Nat := [if n < 0 then 1 else 0, n.natAbs]

/-- Integer decoder: accepts exactly the `encInt` encodings (sign
token 0 or 1, no negative zero). -/
def decInt : List Nat → Option (Int × List Nat)
  | s :: m :: rest =>
    if s = 0 then some ((m : Int), rest)
    else if s = 1 then (if m = 0 then none else some (-(m : Int), rest))
    else none
  | _ => none

/-- Rational encoding: sign token, numerator magnitude, denominator. -/
def encRat (q : Rat) : List Nat := [if q.num < 0 then 1 else 0, q.num.natAbs, q.den]

/-- Rational decoder: accepts exactly the `encRat` encodings (reduced
fraction, nonzero denominator, no negative zero). -/
def decRat : List Nat → Option (Rat × List Nat)
  | s :: m :: d :: rest =>
    if hd : d = 0 then none
    else if hc : Nat.Coprime m d then
      if s = 0 then some (⟨(m : Int), d, hd, by simpa using hc⟩, rest)
      else if s = 1 then
        if m = 0 then none
        else some (⟨-(m : Int), d, hd, by simpa using hc⟩, rest)
      else none
    else none
  | _ => none

/-- String encoding: a length token then the character codepoints. -/
def encStr (s : String) : List Nat := s.length :: s.data.map Char.toNat

/-- String decoder: length-prefixed codepoints, each validated as a
unicode scalar value. -/
def decStr : List Nat → Option (String × List Nat)
  | n :: rest =>
    if (rest.take n).length = n then
      if ∀ c ∈ rest.take n, Nat.isValidChar c then
        some (⟨(rest.take n).map Char.ofNat⟩, rest.drop n)
      else none
    else none
  | [] => none

mutual

/-- Value encoding: a tag token, then the constructor data; lists and
dicts are length-prefixed. -/
def encPy : PyObj → List Nat
  | .pyNone => [0]
  | .int n => 1 :: encInt n
  | .rat q => 2 :: encRat q
  | .str s => 3 :: encStr s
  | .list l => 4 :: l.length :: encPyList l
  | .dict d => 5 :: d.length :: encPyDict d

/-- Encoding of the elements of a list value. -/
def encPyList : List PyObj → List Nat
  | [] => []
  | x :: xs => encPy x ++ encPyList xs

/-- Encoding of the entries of a dict value. -/
def encPyDict : List (String × PyObj) → List Nat
  | [] => []
  | kv :: xs => encStr kv.1 ++ encPy kv.2 ++ encPyDict xs

end

/-- Decoder for `n` consecutive values, given a decoder for one. -/
def decList (dec : List Nat → Option (PyObj × List Nat)) :
    Nat → List Nat → Option (List PyObj × List Nat)
  | 0, rest => some ([], rest)
  | n + 1, rest =>
    match dec rest with
    | none => none
    | some (v, rest2) =>
      match decList dec n rest2 with
      | none => none
      | some (vs, rest3) => some (v :: vs, rest3)

/-- Decoder for `n` consecutive dict entries. -/
def decEntries (dec : List Nat → Option (PyObj × List Nat)) :
    Nat → List Nat → Option (List (String × PyObj) × List Nat)
  | 0, rest => some ([], rest)
  | n + 1, rest =>
    match decStr rest with
    | none => none
    | some (k, rest2) =>
      match dec rest2 with
      | none => none
      | some (v, rest3) =>
        match decEntries dec n rest3 with
        | none => none
        | some (kvs, rest4) => some ((k, v) :: kvs, rest4)

/-- Fuel-indexed value decoder; the fuel bounds the nesting depth and
decreases only when entering a list or dict. -/
def decPy : Nat → List Nat → Option (PyObj × List Nat)
  | 0, _ => none
  | fuel + 1, b =>
    match b with
    | [] => none
    | t :: rest =>
      if t = 0 then some (.pyNone, rest)
      else if t = 1 then (decInt rest).map (fun p => (.int p.1, p.2))
      else if t = 2 then (decRat rest).map (fun p => (.rat p.1, p.2))
      else if t = 3 then (decStr rest).map (fun p => (.str p.1, p.2))
      else if t = 4 then
        match rest with
        | [] => none
        | n :: rest2 => (decList (decPy fuel) n rest2).map (fun p => (.list p.1, p.2))
      else if t = 5 then
        match rest with
        | [] => none
        | n :: rest2 => (decEntries (decPy fuel) n rest2).map (fun p => (.dict p.1, p.2))
      else none

mutual

/-- Nesting measure of a value, used as decoder fuel. -/
def sizePy : PyObj → Nat
  | .pyNone => 1
  | .int _ => 1
  | .rat _ => 1
  | .str _ => 1
  | .list l => 1 + sizePyList l
  | .dict d => 1 + sizePyDict d

/-- Total nesting measure of list elements. -/
def sizePyList : List PyObj → Nat
  | [] => 0
  | x :: xs => sizePy x + sizePyList xs

/-- Total nesting measure of dict entries. -/
def sizePyDict : List (String × PyObj) → Nat
  | [] => 0
  | kv :: xs => 1 + sizePy kv.2 + sizePyDict xs

end

/-- Deserialization failure: corrupt or incompatible serialized bytes. -/
inductive DeserializationError where
  | malformed
deriving Repr, DecidableEq

/-- Payload entries re-read from the decoded token stream. -/
def ratOfPy : PyObj → Option Rat
  | .rat q => some q
  | _ => none

/-- A decoded payload list must consist of numeric entries. -/
def ratListOfPy : List PyObj → Option (List Rat)
  | [] => some []
  | x :: xs =>
    match ratOfPy x with
    | none => none
    | some q =>
      match ratListOfPy xs with
      | none => none
      | some qs => some (q :: qs)

/-- Modelled from the spec: `serialize` "produces a self-describing
byte sequence encoding the payload and the full attribute mapping".
The repository's own byte level (the pickle stream of `Results.save`
and its loader) is not under `src/`. -/
def serialize (r : Results (List Rat)) : List Nat :=
  encPy (.list (r.payload.map PyObj.rat)) ++ encPy (.dict r.dict)

/-- Modelled from the spec: `deserialize` is the "exact inverse of
serialize; fails with DeserializationError on malformed input": decode
the payload list, then the attribute dict, demanding that the stream
is fully consumed. -/
def deserialize (b : List Nat) : Except DeserializationError (Results (List Rat)) :=
  match decPy (b.length + 1) b with
  | some (.list pl, rest) =>
    match ratListOfPy pl with
    | some qs =>
      match decPy (rest.length + 1) rest with
      | some (.dict d, []) => .ok ⟨qs, d⟩
      | _ => .error .malformed
    | none => .error .malformed
  | _ => .error .malformed

/-! ## Lemmas about the attribute `__dict__` -/

theorem setattr_of_not_mem {d : Dict} {k : String} (v : PyObj)
    (h : k ∉ d.map Prod.fst) : setattr d k v = d ++ [(k, v)] := by
  induction d with
  | nil => rfl
  | cons hd t ih =>
    simp only [List.map_cons, List.mem_cons, not_or] at h
    have hne : hd.1 ≠ k := fun he => h.1 he.symm
    simp [setattr, hne, ih h.2]

theorem getattr_of_not_mem {d : Dict} {k : String}
    (h : k ∉ d.map Prod.fst) : getattr d k = none := by
  induction d with
  | nil => rfl
  | cons hd t ih =>
    simp only [List.map_cons, List.mem_cons, not_or] at h
    have hne : hd.1 ≠ k := fun he => h.1 he.symm
    simp [getattr, hne, ih h.2]

theorem getattr_append_of_not_mem {d₁ : Dict} (d₂ : Dict) {k : String}
    (h : k ∉ d₁.map Prod.fst) : getattr (d₁ ++ d₂) k = getattr d₂ k := by
  induction d₁ with
  | nil => rfl
  | cons hd t ih =>
    simp only [List.map_cons, List.mem_cons, not_or] at h
    have hne : hd.1 ≠ k := fun he => h.1 he.symm
    simp [getattr, hne, ih h.2]

theorem getattr_of_mem_nodup {d : Dict} {k : String} {v : PyObj}
    (hnd : (d.map Prod.fst).Nodup) (hmem : (k, v) ∈ d) : getattr d k = some v := by
  induction d with
  | nil => cases hmem
  | cons hd t ih =>
    simp only [List.map_cons, List.nodup_cons] at hnd
    rcases List.mem_cons.mp hmem with rfl | hmem
    · simp [getattr]
    · have hne : hd.1 ≠ k := by
        intro he
        exact hnd.1 (he ▸ List.mem_map_of_mem Prod.fst hmem)
      simp [getattr, hne, ih hnd.2 hmem]

theorem getattr_append_of_mem_nodup {d₁ : Dict} (d₂ : Dict) {k : String} {v : PyObj}
    (hnd : (d₁.map Prod.fst).Nodup) (hmem : (k, v) ∈ d₁) :
    getattr (d₁ ++ d₂) k = some v := by
  induction d₁ with
  | nil => cases hmem
  | cons hd t ih =>
    simp only [List.map_cons, List.nodup_cons] at hnd
    rcases List.mem_cons.mp hmem with rfl | hmem
    · simp [getattr]
    · have hne : hd.1 ≠ k := by
        intro he
        exact hnd.1 (he ▸ List.mem_map_of_mem Prod.fst hmem)
      simp [getattr, hne, ih hnd.2 hmem]

theorem foldl_setattr_fresh {kvs : List (String × PyObj)} :
    ∀ {d : Dict}, (kvs.map Prod.fst).Nodup →
      (∀ k ∈ kvs.map Prod.fst, k ∉ d.map Prod.fst) →
      kvs.foldl (fun d kv => setattr d kv.1 kv.2) d = d ++ kvs := by
  induction kvs with
  | nil => intro d _ _; simp
  | cons hd t ih =>
    intro d hnd hdisj
    simp only [List.map_cons, List.nodup_cons] at hnd
    have hfresh : hd.1 ∉ d.map Prod.fst := hdisj hd.1 (by simp)
    have hstep : setattr d hd.1 hd.2 = d ++ [hd] := setattr_of_not_mem hd.2 hfresh
    have hdisj' : ∀ k ∈ t.map Prod.fst, k ∉ (d ++ [hd]).map Prod.fst := by
      intro k hk
      simp only [List.map_append, List.mem_append, List.map_cons, List.map_nil,
        List.mem_singleton, not_or]
      exact ⟨hdisj k (by simp [hk]), by rintro rfl; exact hnd.1 hk⟩
    calc (hd :: t).foldl (fun d kv => setattr d kv.1 kv.2) d
        = t.foldl (fun d kv => setattr d kv.1 kv.2) (d ++ [hd]) := by
          simp [List.foldl_cons, hstep]
      _ = (d ++ [hd]) ++ t := ih hnd.2 hdisj'
      _ = d ++ hd :: t := by simp

theorem foldl_setattr_congr {kvs : List (String × PyObj)}
    (g : String × PyObj → PyObj) (hg : ∀ kv ∈ kvs, g kv = kv.2) :
    ∀ d : Dict, kvs.foldl (fun s kv => setattr s kv.1 (g kv)) d
      = kvs.foldl (fun s kv => setattr s kv.1 kv.2) d := by
  induction kvs with
  | nil => intro d; rfl
  | cons hd t ih =>
    intro d
    simp only [List.foldl_cons, hg hd (by simp)]
    exact ih (fun kv hkv => hg kv (by simp [hkv])) _

/-- Constructing from a proper attribute mapping `A` (unique keys, none
of them the reserved registry name) yields the payload with `__dict__`
equal to `A` followed by the registry binding. -/
theorem new_dict {π : Type} (P : π) {A : List (String × PyObj)}
    (hnd : (A.map Prod.fst).Nodup) (hres : "_new_attributes" ∉ A.map Prod.fst) :
    Results.new P (.dict A) = .ok ⟨P, A ++ [("_new_attributes", .dict A)]⟩ := by
  have hfold : A.foldl (fun d kv => setattr d kv.1 kv.2) [] = A :=
    (foldl_setattr_fresh hnd (by simp)).trans (by simp)
  have hset : setattr A "_new_attributes" (.dict A) = A ++ [("_new_attributes", .dict A)] :=
    setattr_of_not_mem _ hres
  simp [Results.new, PyObj.items, hfold, hset, bind, Except.bind]

/-- Derivations from a freshly constructed instance copy exactly the
attribute mapping; the registry itself is not copied. -/
theorem derive_dict {π σ : Type} {X : Results π} (f : π → σ)
    {A : List (String × PyObj)}
    (hX : X.dict = A ++ [("_new_attributes", .dict A)])
    (hnd : (A.map Prod.fst).Nodup) (hres : "_new_attributes" ∉ A.map Prod.fst) :
    X.derive f = ⟨f X.payload, A⟩ := by
  have hreg : getattr X.dict "_new_attributes" = some (.dict A) := by
    rw [hX, getattr_append_of_not_mem _ hres]
    simp [getattr]
  have hvals : ∀ kv ∈ A, (getattr X.dict kv.1).getD kv.2 = kv.2 := by
    intro kv hkv
    rw [hX, getattr_append_of_mem_nodup _ hnd hkv]
    rfl
  have hfold :
      A.foldl (fun s kv => setattr s kv.1 ((getattr X.dict kv.1).getD kv.2)) [] = A := by
    rw [foldl_setattr_congr _ hvals]
    exact (foldl_setattr_fresh hnd (by simp)).trans (by simp)
  simp [Results.derive, Results.arrayFinalize, hreg, hfold]

/-- A source without the `_new_attributes` registry propagates nothing:
the derived instance has the derived payload and an empty `__dict__`. -/
theorem derive_no_registry {π σ : Type} {o : Results π} (f : π → σ)
    (h : getattr o.dict "_new_attributes" = none) :
    o.derive f = ⟨f o.payload, []⟩ := by
  simp [Results.derive, Results.arrayFinalize, h]

/-- A source carrying only the registry (no installed attributes, e.g.
one whose user attributes were deleted) still propagates every
registry name, each with its registry fallback value. -/
theorem derive_registry_only {π σ : Type} (Q : π) (f : π → σ)
    (A : List (String × PyObj))
    (hnd : (A.map Prod.fst).Nodup) (hres : "_new_attributes" ∉ A.map Prod.fst) :
    (Results.mk Q [("_new_attributes", PyObj.dict A)]).derive f = ⟨f Q, A⟩ := by
  have hvals : ∀ kv ∈ A,
      ((getattr [("_new_attributes", PyObj.dict A)] kv.1).getD kv.2) = kv.2 := by
    intro kv hkv
    have hne : "_new_attributes" ≠ kv.1 := fun he =>
      hres (by rw [he]; exact List.mem_map_of_mem Prod.fst hkv)
    simp [getattr, hne]
  have hstep : (Results.mk Q [("_new_attributes", PyObj.dict A)]).derive f
      = ⟨f Q, A.foldl
        (fun s kv => setattr s kv.1
          ((getattr [("_new_attributes", PyObj.dict A)] kv.1).getD kv.2)) []⟩ := rfl
  rw [hstep, foldl_setattr_congr _ hvals, foldl_setattr_fresh hnd (by simp)]
  simp

theorem setColumn_getElem? (p : List (List CRat)) (mode : Nat) (col : List CRat)
    (i : Nat) :
    (setColumn p mode col)[i]? = p[i]?.map (fun row => row.set mode (col.getD i ⟨0, 0⟩)) := by
  simp only [setColumn, List.getElem?_map, List.getElem?_enum]
  cases p[i]? <;> rfl

/-! ## Claims C3, C6, C8 -/

/-- Claim C3: for every payload, constructing a `Results` instance with
a non-mapping `new_attributes` argument (in particular `None`, a plain
sequence, or a primitive scalar) fails with the construction-time
error — in the source, the `AttributeError` raised by
`new_attributes.items()` in `__new__`. -/
theorem claim_C3 {π : Type} (p : π) (a : PyObj) (h : ∀ dd, a ≠ PyObj.dict dd) :
    Results.new p a = .error .attributeError := by
  cases a with
  | dict dd => exact absurd rfl (h dd)
  | pyNone => rfl
  | int n => rfl
  | rat q => rfl
  | str s => rfl
  | list l => rfl

theorem claim_C3_witness :
    ((∀ dd, PyObj.pyNone ≠ PyObj.dict dd) ∧
      Results.new ([(1 : Rat)]) PyObj.pyNone = .error .attributeError) ∧
    ((∀ dd, PyObj.list [.int 3] ≠ PyObj.dict dd) ∧
      Results.new ([(1 : Rat)]) (PyObj.list [.int 3]) = .error .attributeError) ∧
    ((∀ dd, PyObj.int 7 ≠ PyObj.dict dd) ∧
      Results.new ([(1 : Rat)]) (PyObj.int 7) = .error .attributeError) :=
  ⟨⟨fun _ h => PyObj.noConfusion h, claim_C3 _ _ (fun _ h => PyObj.noConfusion h)⟩,
    ⟨fun _ h => PyObj.noConfusion h, claim_C3 _ _ (fun _ h => PyObj.noConfusion h)⟩,
    ⟨fun _ h => PyObj.noConfusion h, claim_C3 _ _ (fun _ h => PyObj.noConfusion h)⟩⟩

/-- Claim C6: a derivation whose source lacks the `_new_attributes`
registry silently skips attribute propagation: it completes without
error and the derived instance has the derived payload and no
propagated attributes, exactly as the bare `except AttributeError:
return` in `__array_finalize__` behaves. -/
theorem claim_C6 {π σ : Type} (o : Results π) (f : π → σ)
    (h : getattr o.dict "_new_attributes" = none) :
    o.derive f = ⟨f o.payload, []⟩ :=
  derive_no_registry f h

theorem claim_C6_witness :
    getattr (Results.mk ([(1 : Rat), 2]) [("other", PyObj.int 3)]).dict
        "_new_attributes" = none ∧
    (Results.mk ([(1 : Rat), 2]) [("other", PyObj.int 3)]).derive List.reverse
      = ⟨[2, 1], []⟩ :=
  ⟨rfl, claim_C6 _ _ rfl⟩

/-- Claim C8: calling `plot` on a base `Results` instance raises
`NotImplementedError`, whatever the instance and arguments. -/
theorem claim_C8 {π : Type} (self : Results π) (args : List PyObj) :
    Results.plot self args = .error .notImplementedError :=
  rfl

/-! ## Claim C1: construct / serialize / deserialize round trip -/

/-- Counterexample to claim C1 as stated: the claim quantifies over
every attribute mapping, but for the mapping
`A = {"_new_attributes": 5}` the round trip ends with the registry
bound to `5` (the loop in `__setstate__` overwrites the registry
binding made one line earlier), so the `_new_attributes` registry of
the deserialized instance is not `A`. -/
theorem claim_C1_counterexample :
    roundTrip ([(1 : Rat)]) (.dict [("_new_attributes", PyObj.int 5)])
      = .ok ⟨[(1 : Rat)], [("_new_attributes", PyObj.int 5)]⟩ ∧
    getattr [("_new_attributes", PyObj.int 5)] "_new_attributes"
      ≠ some (PyObj.dict [("_new_attributes", PyObj.int 5)]) := by
  refine ⟨rfl, ?_⟩
  intro h
  exact PyObj.noConfusion (Option.some.inj h)

/-- Claim C1, amended: for every payload `P` and every attribute
mapping `A` (unique names, none of them the reserved internal name
`_new_attributes`), constructing, serializing via `__reduce__` and
deserializing via `__setstate__` yields an instance whose payload is
`P`, whose installed attributes are exactly `A`, and whose
`_new_attributes` registry is `A`. -/
theorem claim_C1 {π : Type} (P : π) (A : List (String × PyObj))
    (hnd : (A.map Prod.fst).Nodup) (hres : "_new_attributes" ∉ A.map Prod.fst) :
    roundTrip P (.dict A) = .ok ⟨P, ("_new_attributes", .dict A) :: A⟩ ∧
    (∀ kv ∈ A, getattr (("_new_attributes", PyObj.dict A) :: A) kv.1 = some kv.2) ∧
    getattr (("_new_attributes", PyObj.dict A) :: A) "_new_attributes"
      = some (.dict A) := by
  have hnew := new_dict P hnd hres
  have hred :
      Results.reduce ⟨P, A ++ [("_new_attributes", PyObj.dict A)]⟩
        = .ok ⟨P, .dict A⟩ := by
    simp [Results.reduce, getattr_append_of_not_mem _ hres, getattr]
  have hdisj : ∀ k ∈ A.map Prod.fst,
      k ∉ ([("_new_attributes", PyObj.dict A)] : Dict).map Prod.fst := by
    intro k hk
    simp only [List.map_cons, List.map_nil, List.mem_singleton]
    rintro rfl
    exact hres hk
  have hset :
      Results.setstate (⟨P, .dict A⟩ : ReduceState π)
        = .ok ⟨P, ("_new_attributes", .dict A) :: A⟩ := by
    simp [Results.setstate, PyObj.items, setattr, foldl_setattr_fresh hnd hdisj,
      bind, Except.bind]
  refine ⟨?_, ?_, ?_⟩
  · simp [roundTrip, hnew, hred, hset, bind, Except.bind]
  · intro kv hkv
    have hne : "_new_attributes" ≠ kv.1 := fun he =>
      hres (by rw [he]; exact List.mem_map_of_mem Prod.fst hkv)
    simpa [getattr, hne] using getattr_of_mem_nodup hnd hkv
  · simp [getattr]

theorem claim_C1_witness :
    (([("speed", PyObj.rat 3)].map Prod.fst).Nodup ∧
      "_new_attributes" ∉ [("speed", PyObj.rat 3)].map Prod.fst) ∧
    roundTrip ([(1 : Rat), 2]) (.dict [("speed", PyObj.rat 3)])
      = .ok ⟨[(1 : Rat), 2],
        [("_new_attributes", .dict [("speed", PyObj.rat 3)]), ("speed", PyObj.rat 3)]⟩ :=
  ⟨⟨by decide, by decide⟩,
    (claim_C1 [(1 : Rat), 2] [("speed", PyObj.rat 3)] (by decide) (by decide)).1⟩

/-! ## Claim C2: derivations propagate the attribute mapping -/

/-- Claim C2: for an instance `X` freshly constructed with attribute
mapping `A` (unique names, no reserved name), every derivation (slice,
copy, same-shape arithmetic result) exposes exactly the attribute names
of `A`, each with the same value as on `X`. -/
theorem claim_C2 {π σ : Type} (P : π) (f : π → σ) (A : List (String × PyObj))
    (hnd : (A.map Prod.fst).Nodup) (hres : "_new_attributes" ∉ A.map Prod.fst)
    (X : Results π) (hX : Results.new P (.dict A) = .ok X) :
    (X.derive f).payload = f X.payload ∧
    (X.derive f).dict = A ∧
    ∀ kv ∈ A, getattr X.dict kv.1 = some kv.2 ∧
      getattr (X.derive f).dict kv.1 = some kv.2 := by
  have hX' : X = ⟨P, A ++ [("_new_attributes", .dict A)]⟩ := by
    have := (new_dict P hnd hres).symm.trans hX
    exact (Except.ok.inj this).symm
  have hder := derive_dict f (X := X) (by rw [hX']) hnd hres
  refine ⟨by rw [hder], by rw [hder], ?_⟩
  intro kv hkv
  constructor
  · rw [hX']
    exact getattr_append_of_mem_nodup _ hnd hkv
  · rw [hder]
    exact getattr_of_mem_nodup hnd hkv

theorem claim_C2_witness :
    (([("speed", PyObj.rat 3)].map Prod.fst).Nodup ∧
      "_new_attributes" ∉ [("speed", PyObj.rat 3)].map Prod.fst ∧
      Results.new ([(1 : Rat), 2]) (.dict [("speed", PyObj.rat 3)])
        = .ok ⟨[(1 : Rat), 2],
          [("speed", PyObj.rat 3), ("_new_attributes", .dict [("speed", PyObj.rat 3)])]⟩) ∧
    ((⟨[(1 : Rat), 2],
        [("speed", PyObj.rat 3), ("_new_attributes", .dict [("speed", PyObj.rat 3)])]⟩ :
        Results (List Rat)).derive List.reverse).dict = [("speed", PyObj.rat 3)] :=
  ⟨⟨by decide, by decide, rfl⟩,
    (claim_C2 [(1 : Rat), 2] List.reverse [("speed", PyObj.rat 3)]
      (by decide) (by decide) _ rfl).2.1⟩

/-! ## Claim C9: transitivity of attribute propagation -/

/-- Counterexample to claim C9 as stated: a first derivation does not
receive the `_new_attributes` registry (the `__array_finalize__` loop
only copies the names listed inside the registry), so a derivation of a
derivation exposes no attributes at all: with `A = {"a": 7}`, the
second derivative's `__dict__` is empty. -/
theorem claim_C9_counterexample :
    Results.new ([(1 : Rat), 2]) (.dict [("a", PyObj.int 7)])
      = .ok ⟨[(1 : Rat), 2], [("a", PyObj.int 7), ("_new_attributes", .dict [("a", PyObj.int 7)])]⟩ ∧
    getattr ((Results.mk ([(1 : Rat), 2])
        [("a", PyObj.int 7), ("_new_attributes", .dict [("a", PyObj.int 7)])]).derive
        id).dict "_new_attributes" = none ∧
    (((Results.mk ([(1 : Rat), 2])
        [("a", PyObj.int 7), ("_new_attributes", .dict [("a", PyObj.int 7)])]).derive
        id).derive id).dict = [] :=
  ⟨rfl, rfl, rfl⟩

/-- Claim C9, amended: propagation is not transitive.  A derivation of
a freshly constructed instance receives exactly the attribute names of
`A` (the value taken from the immediate source, falling back to the
registry value when the source lacks the attribute — last conjunct for
a source carrying only the registry), but not the registry itself, so a
second derivation exposes no propagated attributes. -/
theorem claim_C9 {π σ τ : Type} (P Q : π) (f : π → σ) (g : σ → τ)
    (A : List (String × PyObj))
    (hnd : (A.map Prod.fst).Nodup) (hres : "_new_attributes" ∉ A.map Prod.fst)
    (X : Results π) (hX : Results.new P (.dict A) = .ok X) :
    (X.derive f).dict = A ∧
    getattr (X.derive f).dict "_new_attributes" = none ∧
    ((X.derive f).derive g).dict = [] ∧
    ((Results.mk Q [("_new_attributes", PyObj.dict A)]).derive f).dict = A := by
  have hX' : X = ⟨P, A ++ [("_new_attributes", .dict A)]⟩ := by
    have := (new_dict P hnd hres).symm.trans hX
    exact (Except.ok.inj this).symm
  have hder := derive_dict f (X := X) (by rw [hX']) hnd hres
  have hnoreg : getattr (X.derive f).dict "_new_attributes" = none := by
    rw [hder]
    exact getattr_of_not_mem hres
  refine ⟨by rw [hder], hnoreg, ?_, ?_⟩
  · rw [derive_no_registry g hnoreg]
  · rw [derive_registry_only Q f A hnd hres]

/-- Counterexample to claim C4 as stated: `ModeShapeResults.plot`
mutates the instance it renders.  `evec0 = self[:, mode]` is a view,
and the normalization `evec0 /= modey[iymax]` divides the payload
column in place: on an 8-dof, 1-mode eigenvector `[1, 2, 0, 0, 3, 1,
0, 0]` the branch `ymax > 0.4 * xmax` holds (2 > 0.4·3) and the column
is divided by `modey[0] = 2`, changing the payload. -/
theorem claim_C4_counterexample :
    (((ModeShapeResults.plotSelf
      ⟨[[⟨1, 0⟩], [⟨2, 0⟩], [⟨0, 0⟩], [⟨0, 0⟩], [⟨3, 0⟩], [⟨1, 0⟩], [⟨0, 0⟩], [⟨0, 0⟩]],
        []⟩ 0).payload.getD 0 []).getD 0 ⟨0, 0⟩)
      ≠ (((([[⟨1, 0⟩], [⟨2, 0⟩], [⟨0, 0⟩], [⟨0, 0⟩], [⟨3, 0⟩], [⟨1, 0⟩], [⟨0, 0⟩],
        [⟨0, 0⟩]] : List (List CRat)).getD 0 []).getD 0 ⟨0, 0⟩)) := by
  simp [ModeShapeResults.plotSelf, setColumn, normalizeEvec, evecColumn, strided,
    maxAbsSq, argmaxAbsSq, CRat.div, CRat.absSq, List.enum, List.enumFrom,
    List.findIdx_cons, beq_iff_eq, CRat.mk.injEq]
  norm_num

/-- Claim C4, amended: the Campbell, frequency-response,
forced-response, static and convergence renderers leave the instance
unchanged (the first three are additionally pure functions of the
attributes they read, `FrequencyResponseResults.plot_magnitude` and
`ForcedResponseResults.plot_magnitude` above), but
`ModeShapeResults.plot` mutates the payload: it replaces column `mode`
with its normalization (every row entry divided by the selected
normalizer) and leaves all other columns and the attributes
unchanged. -/
theorem claim_C4 (rc : Results (List (List (List Rat)))) (useWn : Bool)
    (rv rs : Results (List (List Rat))) (sm : List Rat)
    (bs dm : List (Nat × Rat)) (np vx : List Rat)
    (rm : Results (List (List CRat))) (mode : Nat) :
    (CampbellResults.plot rc useWn).1 = rc ∧
    (ConvergenceResults.plot rv).1 = rv ∧
    (StaticResults.plot rs sm bs dm np vx).1 = rs ∧
    (ModeShapeResults.plotSelf rm mode).dict = rm.dict ∧
    (∀ i : Nat, (ModeShapeResults.plotSelf rm mode).payload[i]?
      = rm.payload[i]?.map (fun row => row.set mode
          ((normalizeEvec (evecColumn rm.payload mode)).getD i ⟨0, 0⟩))) ∧
    (∀ i j : Nat, mode ≠ j →
      ((ModeShapeResults.plotSelf rm mode).payload[i]?.map (fun row => row[j]?))
        = rm.payload[i]?.map (fun row => row[j]?)) := by
  refine ⟨rfl, rfl, rfl, rfl, ?_, ?_⟩
  · intro i
    exact setColumn_getElem? rm.payload mode _ i
  · intro i j hj
    rw [show (ModeShapeResults.plotSelf rm mode).payload
      = setColumn rm.payload mode (normalizeEvec (evecColumn rm.payload mode)) from rfl,
      setColumn_getElem?]
    cases rm.payload[i]? with
    | none => rfl
    | some row => simp [List.getElem?_set_ne hj]

theorem claim_C4_witness :
    ((0 : Nat) ≠ 1) ∧
    ((ModeShapeResults.plotSelf
        (⟨[[⟨1, 0⟩, ⟨5, 0⟩]], []⟩ : Results (List (List CRat))) 0).payload[0]?.map
        (fun row => row[1]?))
      = ([[(⟨1, 0⟩ : CRat), ⟨5, 0⟩]])[0]?.map (fun row => row[1]?) :=
  ⟨by decide,
    (claim_C4 ⟨[], []⟩ false ⟨[], []⟩ ⟨[], []⟩ [] [] [] [] []
      ⟨[[⟨1, 0⟩, ⟨5, 0⟩]], []⟩ 0).2.2.2.2.2 0 1 (by decide)⟩

/-- Claim C7: for a Campbell payload with two speed steps and one mode
whose whirl code is 0.0 (forward) at both steps, the forward-marker
series of `CampbellResults.plot` contains exactly the two (speed,
frequency) points, and the mixed (0.5) and backward (1.0) series are
empty. -/
theorem claim_C7 (wd0 ld0 sp0 wn0 wd1 ld1 sp1 wn1 : Rat) (d : Dict) :
    (CampbellResults.plot
      ⟨[[[wd0, ld0, 0, sp0, wn0]], [[wd1, ld1, 0, sp1, wn1]]], d⟩ false).2
      = ⟨[(sp0, wd0), (sp1, wd1)], [], []⟩ := by
  simp [CampbellResults.plot, campbellSeries, column, modeColumn, List.range_succ]

/-- Claim C10: on a valid forced-response instance (dof in range,
non-empty frequency range), `plot_magnitude` with a units value other
than "m" and "mic-pk-pk" fails — the `y_axis_label` local is never
bound before the bokeh `figure(...)` call uses it — rather than
falling back to a dB plot, whereas
`FrequencyResponseResults.plot_magnitude` treats every other units
value as dB and succeeds. -/
theorem claim_C10 (frequency_range : List Rat) (magnitude : List (List Rat))
    (dof : Nat) (units : String)
    (hm : units ≠ "m") (hmic : units ≠ "mic-pk-pk")
    (hdof : dof < magnitude.length) (hfr : frequency_range ≠ []) :
    ForcedResponseResults.plot_magnitude frequency_range magnitude dof units
      = .error .unboundLocalError ∧
    ∀ (mag3 : List (List (List Rat))) (inp out : Nat) (row : List Rat),
      (mag3.get? inp).bind (fun m => m.get? out) = some row →
      FrequencyResponseResults.plot_magnitude frequency_range mag3 inp out units
        = .ok ⟨"Amplitude (dB", frequency_range.zip row⟩ := by
  constructor
  · obtain ⟨row, hrow⟩ : ∃ row, magnitude.get? dof = some row :=
      ⟨_, List.get?_eq_get hdof⟩
    simp only [List.get?_eq_getElem?] at hrow
    simp [ForcedResponseResults.plot_magnitude, hm, hmic, hrow, hfr, bind, Except.bind]
  · intro mag3 inp out row hrow
    simp only [List.get?_eq_getElem?] at hrow
    simp [FrequencyResponseResults.plot_magnitude, hm, hmic, hrow, hfr, bind, Except.bind]

theorem claim_C10_witness :
    (("dB" : String) ≠ "m" ∧ ("dB" : String) ≠ "mic-pk-pk" ∧
      0 < ([[(5 : Rat)]] : List (List Rat)).length ∧ ([(1 : Rat)] : List Rat) ≠ []) ∧
    ForcedResponseResults.plot_magnitude [(1 : Rat)] [[(5 : Rat)]] 0 "dB"
      = .error .unboundLocalError ∧
    FrequencyResponseResults.plot_magnitude [(1 : Rat)] [[[(7 : Rat)]]] 0 0 "dB"
      = .ok ⟨"Amplitude (dB", [((1 : Rat), (7 : Rat))]⟩ :=
  ⟨⟨by decide, by decide, by decide, by decide⟩,
    (claim_C10 [(1 : Rat)] [[(5 : Rat)]] 0 "dB" (by decide) (by decide)
      (by decide) (by decide)).1,
    (claim_C10 [(1 : Rat)] [[(5 : Rat)]] 0 "dB" (by decide) (by decide)
      (by decide) (by decide)).2 [[[(7 : Rat)]]] 0 0 [(7 : Rat)] rfl⟩

/-! ## Codec lemmas -/

theorem decInt_encInt (n : Int) (rest : List Nat) :
    decInt (encInt n ++ rest) = some (n, rest) := by
  by_cases h : n < 0
  · have hm : n.natAbs ≠ 0 := by omega
    simp only [encInt, if_pos h, List.cons_append, List.nil_append, decInt]
    norm_num [hm]
    rw [abs_of_neg h]
    omega
  · simp only [encInt, if_neg h, List.cons_append, List.nil_append, decInt]
    norm_num
    omega

theorem decInt_sound {b : List Nat} {n : Int} {rest : List Nat}
    (h : decInt b = some (n, rest)) : b = encInt n ++ rest := by
  match b with
  | [] => simp [decInt] at h
  | [s] => simp [decInt] at h
  | s :: m :: tl =>
    simp only [decInt] at h
    by_cases hs0 : s = 0
    · subst hs0
      norm_num at h
      obtain ⟨rfl, rfl⟩ := h
      have h1 : ¬((m : Int) < 0) := by omega
      simp [encInt, h1]
    · by_cases hs1 : s = 1
      · subst hs1
        norm_num at h
        obtain ⟨hm, rfl, rfl⟩ := h
        have h1 : -(m : Int) < 0 := by omega
        have h2 : (-(m : Int)).natAbs = m := by omega
        simp [encInt, h1, h2]
      · simp [hs0, hs1] at h

theorem decRat_encRat (q : Rat) (rest : List Nat) :
    decRat (encRat q ++ rest) = some (q, rest) := by
  by_cases h : q.num < 0
  · have hm : q.num.natAbs ≠ 0 := by omega
    simp only [encRat, if_pos h, List.cons_append, List.nil_append, decRat,
      dif_neg q.den_nz, dif_pos q.reduced]
    norm_num [hm]
    refine Rat.ext ?_ rfl
    simp [abs_of_neg h]
  · simp only [encRat, if_neg h, List.cons_append, List.nil_append, decRat,
      dif_neg q.den_nz, dif_pos q.reduced]
    norm_num
    refine Rat.ext ?_ rfl
    simpa using abs_of_nonneg (by omega : (0 : Int) ≤ q.num)

theorem decRat_sound {b : List Nat} {q : Rat} {rest : List Nat}
    (h : decRat b = some (q, rest)) : b = encRat q ++ rest := by
  match b with
  | [] => simp [decRat] at h
  | [s] => simp [decRat] at h
  | [s, m] => simp [decRat] at h
  | s :: m :: d :: tl =>
    simp only [decRat] at h
    by_cases hd : d = 0
    · simp [hd] at h
    · rw [dif_neg hd] at h
      by_cases hc : Nat.Coprime m d
      · rw [dif_pos hc] at h
        by_cases hs0 : s = 0
        · subst hs0
          norm_num at h
          obtain ⟨rfl, rfl⟩ := h
          have h1 : ¬((m : Int) < 0) := by omega
          simp [encRat, h1]
        · by_cases hs1 : s = 1
          · subst hs1
            norm_num at h
            obtain ⟨hm, rfl, rfl⟩ := h
            have h1 : -(m : Int) < 0 := by omega
            have h2 : (-(m : Int)).natAbs = m := by omega
            simp [encRat, h1, h2]
          · simp [hs0, hs1] at h
      · simp [hc] at h

theorem toNat_ofNat_valid {n : Nat} (h : n.isValidChar) : (Char.ofNat n).toNat = n := by
  rw [Char.ofNat, dif_pos h]
  rfl

theorem decStr_encStr (s : String) (rest : List Nat) :
    decStr (encStr s ++ rest) = some (s, rest) := by
  have hlen : (s.data.map Char.toNat).length = s.length := by
    rw [List.length_map]
    rfl
  have htake : ((s.data.map Char.toNat) ++ rest).take s.length = s.data.map Char.toNat := by
    rw [← hlen]
    exact List.take_left _ _
  have hdrop : ((s.data.map Char.toNat) ++ rest).drop s.length = rest := by
    rw [← hlen]
    exact List.drop_left _ _
  have hvalid : ∀ c ∈ s.data.map Char.toNat, Nat.isValidChar c := by
    intro c hc
    obtain ⟨ch, _, rfl⟩ := List.mem_map.mp hc
    exact ch.valid
  have hmk : String.mk ((s.data.map Char.toNat).map Char.ofNat) = s := by
    rw [List.map_map]
    have h2 : s.data.map (Char.ofNat ∘ Char.toNat) = s.data := by
      refine (List.map_congr_left ?_).trans (List.map_id _)
      intro ch _
      exact Char.ofNat_toNat ch
    rw [h2]
  simp only [encStr, List.cons_append, decStr, htake, hdrop, hlen, if_pos rfl,
    if_pos hvalid, if_true, hmk]

theorem decStr_sound {b : List Nat} {t : String} {rest : List Nat}
    (h : decStr b = some (t, rest)) : b = encStr t ++ rest := by
  match b with
  | [] => simp [decStr] at h
  | n :: tl =>
    simp only [decStr] at h
    by_cases hl : (tl.take n).length = n
    · rw [if_pos hl] at h
      by_cases hv : ∀ c ∈ tl.take n, Nat.isValidChar c
      · rw [if_pos hv] at h
        simp only [Option.some.injEq, Prod.mk.injEq] at h
        obtain ⟨rfl, rfl⟩ := h
        have hdata : (String.mk ((tl.take n).map Char.ofNat)).data
            = (tl.take n).map Char.ofNat := rfl
        have hlen2 : (String.mk ((tl.take n).map Char.ofNat)).length = n := by
          simp only [String.length, hdata, List.length_map]
          exact hl
        have hmap : ((tl.take n).map Char.ofNat).map Char.toNat = tl.take n := by
          rw [List.map_map]
          refine (List.map_congr_left ?_).trans (List.map_id _)
          intro c hc
          exact toNat_ofNat_valid (hv c hc)
        simp only [encStr, hlen2, hdata, hmap, List.cons_append]
        rw [List.take_append_drop]
      · rw [if_neg hv] at h
        exact absurd h (by simp)
    · rw [if_neg hl] at h
      exact absurd h (by simp)

theorem sizePy_pos (v : PyObj) : 1 ≤ sizePy v := by
  cases v <;> simp [sizePy]

theorem sizePy_le_of_mem_list {x : PyObj} {l : List PyObj} (hx : x ∈ l) :
    sizePy x ≤ sizePyList l := by
  induction l with
  | nil => cases hx
  | cons y ys ih =>
    rcases List.mem_cons.mp hx with rfl | hx'
    · simp [sizePyList]
    · have := ih hx'
      simp only [sizePyList]
      omega

theorem sizePy_le_of_mem_dict {kv : String × PyObj} {d : List (String × PyObj)}
    (hkv : kv ∈ d) : sizePy kv.2 ≤ sizePyDict d := by
  induction d with
  | nil => cases hkv
  | cons y ys ih =>
    rcases List.mem_cons.mp hkv with rfl | hkv'
    · simp only [sizePyDict]
      omega
    · have := ih hkv'
      simp only [sizePyDict]
      omega

theorem decList_enc_of (dec : List Nat → Option (PyObj × List Nat)) (l : List PyObj)
    (hdec : ∀ x ∈ l, ∀ r, dec (encPy x ++ r) = some (x, r)) :
    ∀ rest, decList dec l.length (encPyList l ++ rest) = some (l, rest) := by
  induction l with
  | nil =>
    intro rest
    simp [encPyList, decList]
  | cons x xs ih =>
    intro rest
    have h1 : dec (encPy x ++ (encPyList xs ++ rest)) = some (x, encPyList xs ++ rest) :=
      hdec x (by simp) _
    have h2 := ih (fun y hy r => hdec y (by simp [hy]) r) rest
    simp [encPyList, decList, List.append_assoc, h1, h2]

theorem decEntries_enc_of (dec : List Nat → Option (PyObj × List Nat))
    (d : List (String × PyObj))
    (hdec : ∀ kv ∈ d, ∀ r, dec (encPy kv.2 ++ r) = some (kv.2, r)) :
    ∀ rest, decEntries dec d.length (encPyDict d ++ rest) = some (d, rest) := by
  induction d with
  | nil =>
    intro rest
    simp [encPyDict, decEntries]
  | cons kv xs ih =>
    intro rest
    have h0 : decStr (encStr kv.1 ++ (encPy kv.2 ++ (encPyDict xs ++ rest)))
        = some (kv.1, encPy kv.2 ++ (encPyDict xs ++ rest)) := decStr_encStr _ _
    have h1 : dec (encPy kv.2 ++ (encPyDict xs ++ rest))
        = some (kv.2, encPyDict xs ++ rest) := hdec kv (by simp) _
    have h2 := ih (fun y hy r => hdec y (by simp [hy]) r) rest
    simp [encPyDict, decEntries, List.append_assoc, h0, h1, h2]

theorem decPy_enc : ∀ (fuel : Nat) (v : PyObj) (rest : List Nat), sizePy v ≤ fuel →
    decPy fuel (encPy v ++ rest) = some (v, rest) := by
  intro fuel
  induction fuel with
  | zero =>
    intro v rest h
    exact absurd h (by have := sizePy_pos v; omega)
  | succ f ih =>
    intro v rest h
    match v with
    | .pyNone => simp [encPy, decPy]
    | .int n => simp [encPy, decPy, decInt_encInt]
    | .rat q => simp [encPy, decPy, decRat_encRat]
    | .str s => simp [encPy, decPy, decStr_encStr]
    | .list l =>
      have h' : sizePyList l ≤ f := by
        simp only [sizePy] at h
        omega
      have hlist := decList_enc_of (decPy f) l
        (fun x hx r => ih x r (le_trans (sizePy_le_of_mem_list hx) h')) rest
      simp [encPy, decPy, hlist]
    | .dict d =>
      have h' : sizePyDict d ≤ f := by
        simp only [sizePy] at h
        omega
      have hdict := decEntries_enc_of (decPy f) d
        (fun kv hkv r => ih kv.2 r (le_trans (sizePy_le_of_mem_dict hkv) h')) rest
      simp [encPy, decPy, hdict]

theorem decList_sound_of (dec : List Nat → Option (PyObj × List Nat))
    (hdec : ∀ b v r, dec b = some (v, r) → b = encPy v ++ r) :
    ∀ (n : Nat) (b : List Nat) (l : List PyObj) (rest : List Nat),
      decList dec n b = some (l, rest) → b = encPyList l ++ rest ∧ l.length = n := by
  intro n
  induction n with
  | zero =>
    intro b l rest h
    simp only [decList, Option.some.injEq, Prod.mk.injEq] at h
    obtain ⟨rfl, rfl⟩ := h
    simp [encPyList]
  | succ k ih =>
    intro b l rest h
    simp only [decList] at h
    split at h
    · exact absurd h (by simp)
    next v rest2 hdec1 =>
      split at h
      · exact absurd h (by simp)
      next vs rest3 hdec2 =>
        simp only [Option.some.injEq, Prod.mk.injEq] at h
        obtain ⟨rfl, rfl⟩ := h
        obtain ⟨hb2, hlen⟩ := ih rest2 vs rest3 hdec2
        have hb1 := hdec _ _ _ hdec1
        subst hb1 hb2
        refine ⟨by simp [encPyList], by simp [hlen]⟩

theorem decEntries_sound_of (dec : List Nat → Option (PyObj × List Nat))
    (hdec : ∀ b v r, dec b = some (v, r) → b = encPy v ++ r) :
    ∀ (n : Nat) (b : List Nat) (d : List (String × PyObj)) (rest : List Nat),
      decEntries dec n b = some (d, rest) → b = encPyDict d ++ rest ∧ d.length = n := by
  intro n
  induction n with
  | zero =>
    intro b d rest h
    simp only [decEntries, Option.some.injEq, Prod.mk.injEq] at h
    obtain ⟨rfl, rfl⟩ := h
    simp [encPyDict]
  | succ k ih =>
    intro b d rest h
    simp only [decEntries] at h
    split at h
    · exact absurd h (by simp)
    next k0 rest2 hstr =>
      split at h
      · exact absurd h (by simp)
      next v rest3 hv =>
        split at h
        · exact absurd h (by simp)
        next kvs rest4 hrec =>
          simp only [Option.some.injEq, Prod.mk.injEq] at h
          obtain ⟨rfl, rfl⟩ := h
          obtain ⟨hb3, hlen⟩ := ih rest3 kvs rest4 hrec
          have hb1 := decStr_sound hstr
          have hb2 := hdec _ _ _ hv
          subst hb1 hb2 hb3
          refine ⟨by simp [encPyDict], by simp [hlen]⟩

theorem decPy_sound : ∀ (fuel : Nat) {b : List Nat} {v : PyObj} {rest : List Nat},
    decPy fuel b = some (v, rest) → b = encPy v ++ rest := by
  intro fuel
  induction fuel with
  | zero =>
    intro b v rest h
    simp [decPy] at h
  | succ f ih =>
    intro b v rest h
    match b with
    | [] => simp [decPy] at h
    | t :: tl =>
      simp only [decPy] at h
      by_cases h0 : t = 0
      · subst h0
        rw [if_pos rfl] at h
        simp only [Option.some.injEq, Prod.mk.injEq] at h
        obtain ⟨rfl, rfl⟩ := h
        simp [encPy]
      · by_cases h1 : t = 1
        · subst h1
          rw [if_neg h0, if_pos rfl, Option.map_eq_some'] at h
          obtain ⟨p, heq, hpair⟩ := h
          obtain ⟨rfl, rfl⟩ : PyObj.int p.1 = v ∧ p.2 = rest := by
            simpa using hpair
          have hb := decInt_sound heq
          subst hb
          simp [encPy]
        · by_cases h2 : t = 2
          · subst h2
            rw [if_neg h0, if_neg h1, if_pos rfl, Option.map_eq_some'] at h
            obtain ⟨p, heq, hpair⟩ := h
            obtain ⟨rfl, rfl⟩ : PyObj.rat p.1 = v ∧ p.2 = rest := by
              simpa using hpair
            have hb := decRat_sound heq
            subst hb
            simp [encPy]
          · by_cases h3 : t = 3
            · subst h3
              rw [if_neg h0, if_neg h1, if_neg h2, if_pos rfl, Option.map_eq_some'] at h
              obtain ⟨p, heq, hpair⟩ := h
              obtain ⟨rfl, rfl⟩ : PyObj.str p.1 = v ∧ p.2 = rest := by
                simpa using hpair
              have hb := decStr_sound heq
              subst hb
              simp [encPy]
            · by_cases h4 : t = 4
              · subst h4
                rw [if_neg h0, if_neg h1, if_neg h2, if_neg h3, if_pos rfl] at h
                cases tl with
                | nil => simp at h
                | cons n rest2 =>
                  rw [show (match (n :: rest2 : List Nat) with
                      | [] => none
                      | n :: rest2 =>
                        (decList (decPy f) n rest2).map (fun p => (PyObj.list p.1, p.2)))
                      = (decList (decPy f) n rest2).map (fun p => (PyObj.list p.1, p.2))
                      from rfl, Option.map_eq_some'] at h
                  obtain ⟨p, heq, hpair⟩ := h
                  obtain ⟨rfl, rfl⟩ : PyObj.list p.1 = v ∧ p.2 = rest := by
                    simpa using hpair
                  obtain ⟨hb, hlen⟩ :=
                    decList_sound_of (decPy f) (fun _ _ _ hh => ih hh) n rest2 p.1 p.2 heq
                  subst hb hlen
                  simp [encPy]
              · by_cases h5 : t = 5
                · subst h5
                  rw [if_neg h0, if_neg h1, if_neg h2, if_neg h3, if_neg h4,
                    if_pos rfl] at h
                  cases tl with
                  | nil => simp at h
                  | cons n rest2 =>
                    rw [show (match (n :: rest2 : List Nat) with
                        | [] => none
                        | n :: rest2 =>
                          (decEntries (decPy f) n rest2).map (fun p => (PyObj.dict p.1, p.2)))
                        = (decEntries (decPy f) n rest2).map (fun p => (PyObj.dict p.1, p.2))
                        from rfl, Option.map_eq_some'] at h
                    obtain ⟨p, heq, hpair⟩ := h
                    obtain ⟨rfl, rfl⟩ : PyObj.dict p.1 = v ∧ p.2 = rest := by
                      simpa using hpair
                    obtain ⟨hb, hlen⟩ :=
                      decEntries_sound_of (decPy f) (fun _ _ _ hh => ih hh) n rest2 p.1 p.2 heq
                    subst hb hlen
                    simp [encPy]
                · rw [if_neg h0, if_neg h1, if_neg h2, if_neg h3, if_neg h4,
                    if_neg h5] at h
                  exact absurd h (by simp)

theorem sizePy_le_encLen : ∀ v : PyObj, sizePy v ≤ (encPy v).length
  | .pyNone => by simp [sizePy, encPy]
  | .int n => by simp [sizePy, encPy, encInt]
  | .rat q => by simp [sizePy, encPy, encRat]
  | .str s => by simp [sizePy, encPy, encStr]
  | .list l => by
    have haux : ∀ xs : List PyObj, (∀ x ∈ xs, sizePy x ≤ (encPy x).length) →
        sizePyList xs ≤ (encPyList xs).length := by
      intro xs hxs
      induction xs with
      | nil => simp [sizePyList, encPyList]
      | cons y ys ihy =>
        have hy := hxs y (by simp)
        have hys := ihy (fun z hz => hxs z (by simp [hz]))
        simp only [sizePyList, encPyList, List.length_append]
        omega
    have h1 := haux l (fun x hx => sizePy_le_encLen x)
    simp only [sizePy, encPy, List.length_cons]
    omega
  | .dict d => by
    have haux : ∀ xs : List (String × PyObj), (∀ kv ∈ xs, sizePy kv.2 ≤ (encPy kv.2).length) →
        sizePyDict xs ≤ (encPyDict xs).length := by
      intro xs hxs
      induction xs with
      | nil => simp [sizePyDict, encPyDict]
      | cons y ys ihy =>
        have hy := hxs y (by simp)
        have hys := ihy (fun z hz => hxs z (by simp [hz]))
        simp only [sizePyDict, encPyDict, List.length_append, encStr,
          List.length_cons]
        omega
    have h1 := haux d (fun kv hkv => sizePy_le_encLen kv.2)
    simp only [sizePy, encPy, List.length_cons]
    omega
termination_by v => sizeOf v
decreasing_by
  · have h1 := List.sizeOf_lt_of_mem hx
    simp only [PyObj.list.sizeOf_spec]
    omega
  · have h1 := List.sizeOf_lt_of_mem hkv
    have h2 : sizeOf kv.2 < sizeOf kv := by
      obtain ⟨k1, k2⟩ := kv
      simp only [Prod.mk.sizeOf_spec]
      omega
    simp only [PyObj.dict.sizeOf_spec]
    omega

theorem ratListOfPy_map (l : List Rat) : ratListOfPy (l.map PyObj.rat) = some l := by
  induction l with
  | nil => rfl
  | cons a t ih => simp [ratListOfPy, ratOfPy, ih]

theorem ratOfPy_eq_some {x : PyObj} {q : Rat} (h : ratOfPy x = some q) : x = .rat q := by
  cases x <;> simp [ratOfPy] at h
  rw [h]

theorem ratListOfPy_inv : ∀ {pl : List PyObj} {qs : List Rat},
    ratListOfPy pl = some qs → pl = qs.map PyObj.rat := by
  intro pl
  induction pl with
  | nil =>
    intro qs h
    simp only [ratListOfPy, Option.some.injEq] at h
    rw [← h]
    rfl
  | cons x t ih =>
    intro qs h
    simp only [ratListOfPy] at h
    split at h
    · exact absurd h (by simp)
    next q hq =>
      split at h
      · exact absurd h (by simp)
      next ts hts =>
        simp only [Option.some.injEq] at h
        rw [← h, ratOfPy_eq_some hq, ih hts]
        rfl

theorem deserialize_serialize (r : Results (List Rat)) :
    deserialize (serialize r) = .ok r := by
  have hv1 : sizePy (.list (r.payload.map PyObj.rat)) ≤ (serialize r).length + 1 := by
    have h1 := sizePy_le_encLen (.list (r.payload.map PyObj.rat))
    have h2 : (encPy (.list (r.payload.map PyObj.rat))).length ≤ (serialize r).length := by
      simp [serialize]
    omega
  have h1 : decPy ((serialize r).length + 1) (serialize r)
      = some (.list (r.payload.map PyObj.rat), encPy (.dict r.dict)) :=
    decPy_enc _ _ _ hv1
  have hv2 : sizePy (.dict r.dict) ≤ (encPy (.dict r.dict)).length + 1 := by
    have := sizePy_le_encLen (.dict r.dict)
    omega
  have h2 : decPy ((encPy (.dict r.dict)).length + 1) (encPy (.dict r.dict))
      = some (.dict r.dict, []) := by
    have := decPy_enc ((encPy (.dict r.dict)).length + 1) (.dict r.dict) [] hv2
    simpa using this
  simp only [deserialize, h1, ratListOfPy_map, h2]

theorem deserialize_sound (b : List Nat) (r : Results (List Rat))
    (h : deserialize b = .ok r) : b = serialize r := by
  unfold deserialize at h
  split at h
  next pl rest h1 =>
    split at h
    next qs h2 =>
      split at h
      next d h3 =>
        simp only [Except.ok.injEq] at h
        subst h
        have hb := decPy_sound _ h1
        have hrest := decPy_sound _ h3
        have hpl := ratListOfPy_inv h2
        subst hpl
        rw [hb, hrest]
        simp [serialize]
      next hne => exact absurd h (by simp)
    next => exact absurd h (by simp)
  next => exact absurd h (by simp)

theorem deserialize_take (r : Results (List Rat)) (n : Nat)
    (hn : n < (serialize r).length) :
    deserialize ((serialize r).take n) = .error .malformed := by
  cases hdes : deserialize ((serialize r).take n) with
  | error e => cases e; rfl
  | ok r' =>
    exfalso
    have hts := deserialize_sound _ _ hdes
    have hsplit : serialize r = serialize r' ++ (serialize r).drop n := by
      rw [← hts]
      exact (List.take_append_drop n _).symm
    have htail : (serialize r).drop n ≠ [] := by
      intro hd
      have : (serialize r).length ≤ n := by
        by_contra hlt
        have := List.length_drop n (serialize r)
        rw [hd] at this
        simp at this
        omega
      omega
    set tail := (serialize r).drop n with htaildef
    set F := (serialize r).length + 1 with hFdef
    have e1 : decPy F (serialize r)
        = some (.list (r.payload.map PyObj.rat), encPy (.dict r.dict)) := by
      apply decPy_enc
      have h1 := sizePy_le_encLen (.list (r.payload.map PyObj.rat))
      have h2 : (encPy (.list (r.payload.map PyObj.rat))).length ≤ (serialize r).length := by
        simp [serialize]
      omega
    have e1' : decPy F (serialize r)
        = some (.list (r'.payload.map PyObj.rat), encPy (.dict r'.dict) ++ tail) := by
      have hser : serialize r
          = encPy (.list (r'.payload.map PyObj.rat)) ++ (encPy (.dict r'.dict) ++ tail) := by
        rw [hsplit]
        simp [serialize, List.append_assoc]
      rw [hser]
      apply decPy_enc
      have h1 := sizePy_le_encLen (.list (r'.payload.map PyObj.rat))
      have h2 : (encPy (.list (r'.payload.map PyObj.rat))).length
          ≤ (serialize r).length := by
        conv_rhs => rw [hser]
        simp
      omega
    have heq := e1.symm.trans e1'
    simp only [Option.some.injEq, Prod.mk.injEq] at heq
    obtain ⟨-, heq2⟩ := heq
    set F2 := (encPy (.dict r.dict)).length + 1 with hF2def
    have e2 : decPy F2 (encPy (.dict r.dict)) = some (.dict r.dict, []) := by
      have := decPy_enc F2 (.dict r.dict) []
        (by have := sizePy_le_encLen (.dict r.dict); omega)
      simpa using this
    have e2' : decPy F2 (encPy (.dict r.dict)) = some (.dict r'.dict, tail) := by
      rw [heq2]
      apply decPy_enc
      have h1 := sizePy_le_encLen (.dict r'.dict)
      have h2 : (encPy (.dict r'.dict)).length ≤ (encPy (.dict r.dict)).length := by
        rw [heq2]
        simp
      omega
    have hfin := e2.symm.trans e2'
    simp only [Option.some.injEq, Prod.mk.injEq] at hfin
    exact htail hfin.2.symm

/-- Counterexample to claim C5 as stated: a corrupted byte sequence is
not always rejected.  Corrupting the last token of the serialization
of `⟨[], {"a": 0}⟩` (flipping it from 0 to 1) produces the equally
long, valid serialization of `⟨[], {"a": 1}⟩`, which deserializes
silently to an instance with a different attribute mapping. -/
theorem claim_C5_counterexample :
    (serialize ⟨[], [("a", PyObj.int 1)]⟩).length
      = (serialize ⟨[], [("a", PyObj.int 0)]⟩).length ∧
    serialize ⟨[], [("a", PyObj.int 1)]⟩ ≠ serialize ⟨[], [("a", PyObj.int 0)]⟩ ∧
    deserialize (serialize ⟨[], [("a", PyObj.int 1)]⟩)
      = .ok ⟨[], [("a", PyObj.int 1)]⟩ ∧
    getattr [("a", PyObj.int 1)] "a" ≠ getattr [("a", PyObj.int 0)] "a" := by
  have hdata : "a".data = ['a'] := rfl
  have hlen : "a".length = 1 := rfl
  have hchar : Char.toNat 'a' = 97 := rfl
  have h1 : serialize ⟨[], [("a", PyObj.int 1)]⟩ = [4, 0, 5, 1, 1, 97, 1, 0, 1] := by
    simp [serialize, encPy, encPyList, encPyDict, encStr, encInt, hdata, hlen, hchar]
  have h0 : serialize ⟨[], [("a", PyObj.int 0)]⟩ = [4, 0, 5, 1, 1, 97, 1, 0, 0] := by
    simp [serialize, encPy, encPyList, encPyDict, encStr, encInt, hdata, hlen, hchar]
  refine ⟨by rw [h1, h0]; rfl, by rw [h1, h0]; decide, deserialize_serialize _, ?_⟩
  simp [getattr]

/-- Claim C5, amended: deserialization never silently returns an
instance inconsistent with the bytes — whatever it returns is exactly
what the bytes encode — and deserializing any truncation of a
serialized stream fails with `DeserializationError`; but a corruption
that happens to produce another valid encoding is returned silently
with that encoding's payload and attribute mapping (see the
counterexample), which no self-describing format without redundancy
can avoid. -/
theorem claim_C5 :
    (∀ r : Results (List Rat), deserialize (serialize r) = .ok r) ∧
    (∀ (b : List Nat) (r : Results (List Rat)), deserialize b = .ok r → b = serialize r) ∧
    (∀ (r : Results (List Rat)) (n : Nat), n < (serialize r).length →
      deserialize ((serialize r).take n) = .error .malformed) :=
  ⟨deserialize_serialize, deserialize_sound, deserialize_take⟩

theorem claim_C5_witness :
    3 < (serialize ⟨[], [("a", PyObj.int 0)]⟩).length ∧
    deserialize ((serialize ⟨[], [("a", PyObj.int 0)]⟩).take 3) = .error .malformed := by
  have h0 : serialize ⟨[], [("a", PyObj.int 0)]⟩ = [4, 0, 5, 1, 1, 97, 1, 0, 0] := by
    have hdata : "a".data = ['a'] := rfl
    have hlen : "a".length = 1 := rfl
    have hchar : Char.toNat 'a' = 97 := rfl
    simp [serialize, encPy, encPyList, encPyDict, encStr, encInt, hdata, hlen, hchar]
  have hlt : 3 < (serialize ⟨[], [("a", PyObj.int 0)]⟩).length := by
    rw [h0]
    decide
  exact ⟨hlt, claim_C5.2.2 _ 3 hlt⟩

theorem claim_C9_witness :
    (([("a", PyObj.int 7)].map Prod.fst).Nodup ∧
      "_new_attributes" ∉ [("a", PyObj.int 7)].map Prod.fst ∧
      Results.new ([(1 : Rat), 2]) (.dict [("a", PyObj.int 7)])
        = .ok ⟨[(1 : Rat), 2],
          [("a", PyObj.int 7), ("_new_attributes", .dict [("a", PyObj.int 7)])]⟩) ∧
    (((⟨[(1 : Rat), 2],
        [("a", PyObj.int 7), ("_new_attributes", .dict [("a", PyObj.int 7)])]⟩ :
        Results (List Rat)).derive id).derive id).dict = [] :=
  ⟨⟨by decide, by decide, rfl⟩,
    (claim_C9 [(1 : Rat), 2] [(3 : Rat)] id id [("a", PyObj.int 7)]
      (by decide) (by decide) _ rfl).2.2.1⟩

end Ross
